import Mathlib

/-!
Verification of charm-helpers `charmhelpers/fetch/__init__.py`.

A shallow embedding of the fetch module of the charm-helpers repository,
together with theorems settling the specification claims about it.

Modelling conventions:
* External side effects (subprocess invocations, file writes, log calls,
  `add_source` / `apt_update` call boundaries) are recorded as explicit
  effect lists returned by the embedded functions.
* Python exceptions are modelled with explicit error values
  (`Except` results or an `Option` error component).
* Python truthiness of an optional string (`None` and `""` are falsy)
  is modelled by `pyTruthyOptStr`.
-/

namespace CharmHelpers

/-- Python truthiness of a value that is either `None` or a string:
`None` and the empty string are falsy, any other string is truthy. -/
def pyTruthyOptStr : Option String → Bool
  | none => false
  | some s => !(s == "")

/-- An entry of the apt package cache (`apt_pkg.Cache()[name]`):
the `current_ver` attribute, `none` when no version is installed. -/
structure AptPkgEntry where
  current_ver : Option String
deriving DecidableEq

/-- The apt cache: a partial map from package name to cache entry;
`none` models the `KeyError` branch for a package absent from the cache. -/
def AptCache := String → Option AptPkgEntry

/-- Side effects performed by the package-operation helpers. -/
inductive SysEffect where
  | checkCall (cmd : List String)
  | procCall (cmd : List String)
  | fileWrite (path : String) (content : String)
  | logMsg (msg : String) (level : Option String)
deriving DecidableEq

/-- `filter_installed_packages(packages)`: iterate the requested names in
order; a name absent from the cache (Python `KeyError`) is logged as a
warning and appended; a present name is appended exactly when its
`current_ver` is falsy (`p.current_ver or _pkgs.append(package)`).
Returns the accumulated list together with the log effects. -/
def filter_installed_packages (cache : AptCache) :
    List String → List String × List SysEffect
  | [] => ([], [])
  | package :: rest =>
    match cache package with
    | some p =>
      let r := filter_installed_packages cache rest
      if pyTruthyOptStr p.current_ver then r
      else (package :: r.1, r.2)
    | none =>
      let r := filter_installed_packages cache rest
      (package :: r.1,
       SysEffect.logMsg ("Package " ++ package ++ " has no installation candidate.")
         (some "WARNING") :: r.2)

/-- Spec-level predicate: a package needs installation when it is absent
from the cache or has no (truthy) installed version. -/
def needsInstall (cache : AptCache) (p : String) : Bool :=
  match cache p with
  | none => true
  | some e => !(pyTruthyOptStr e.current_ver)

/-- The warning logged for a package absent from the cache. -/
def noCandidateLog (p : String) : SysEffect :=
  SysEffect.logMsg ("Package " ++ p ++ " has no installation candidate.") (some "WARNING")

theorem filter_installed_packages_eq_filter (cache : AptCache) (packages : List String) :
    (filter_installed_packages cache packages).1 = packages.filter (needsInstall cache) := by
  induction packages with
  | nil => rfl
  | cons p rest ih =>
    unfold filter_installed_packages
    rw [List.filter_cons]
    cases h : cache p with
    | none =>
      have hni : needsInstall cache p = true := by unfold needsInstall; rw [h]
      simp [hni, ih]
    | some e =>
      cases hv : pyTruthyOptStr e.current_ver with
      | true =>
        have hni : needsInstall cache p = false := by unfold needsInstall; rw [h]; simp [hv]
        simp [hni, hv, ih]
      | false =>
        have hni : needsInstall cache p = true := by unfold needsInstall; rw [h]; simp [hv]
        simp [hni, hv, ih]

theorem filter_installed_packages_absent_logged (cache : AptCache) (packages : List String)
    (p : String) (hmem : p ∈ packages) (habs : cache p = none) :
    noCandidateLog p ∈ (filter_installed_packages cache packages).2 ∧
      p ∈ (filter_installed_packages cache packages).1 := by
  induction packages with
  | nil => cases hmem
  | cons q rest ih =>
    rcases List.mem_cons.mp hmem with hq | hq
    · subst hq
      unfold filter_installed_packages
      rw [habs]
      exact ⟨List.mem_cons_self _ _, List.mem_cons_self _ _⟩
    · have := ih hq
      unfold filter_installed_packages
      cases h : cache q with
      | none =>
        exact ⟨List.mem_cons_of_mem _ this.1, List.mem_cons_of_mem _ this.2⟩
      | some e =>
        cases hv : pyTruthyOptStr e.current_ver with
        | true => simpa [h, hv] using this
        | false =>
          refine ⟨?_, ?_⟩ <;> simp [h, hv, this.1, this.2]

/-- C8: `filter_installed_packages` returns exactly the sub-list of names
that have no installed version or are absent from the package cache,
preserving the order of the input list (this is `List.filter`); an absent
package is logged as a warning and still included in the result. -/
theorem filter_installed_packages_spec (cache : AptCache) (packages : List String) :
    (filter_installed_packages cache packages).1 = packages.filter (needsInstall cache) ∧
    (∀ p ∈ packages, cache p = none →
      noCandidateLog p ∈ (filter_installed_packages cache packages).2 ∧
        p ∈ (filter_installed_packages cache packages).1) :=
  ⟨filter_installed_packages_eq_filter cache packages,
   fun p hp habs => filter_installed_packages_absent_logged cache packages p hp habs⟩

/-- A concrete apt cache mirroring the repository's test fixture:
`vim` installed, `emacs` present but not installed, everything else absent. -/
def testCache : AptCache := fun p =>
  if p == "vim" then some ⟨some "2:7.3.547-6ubuntu5"⟩
  else if p == "emacs" then some ⟨none⟩
  else none

/-- Witness for C8 at the test fixture cache and packages `[vim, emacs, joe]`. -/
theorem filter_installed_packages_spec_witness :
    (filter_installed_packages testCache ["vim", "emacs", "joe"]).1
        = ["vim", "emacs", "joe"].filter (needsInstall testCache) ∧
      (noCandidateLog "joe" ∈ (filter_installed_packages testCache ["vim", "emacs", "joe"]).2 ∧
        "joe" ∈ (filter_installed_packages testCache ["vim", "emacs", "joe"]).1) := by
  have h := filter_installed_packages_spec testCache ["vim", "emacs", "joe"]
  exact ⟨h.1, h.2 "joe" (by decide) (by rfl)⟩

/-! ## Package operation wrappers and `add_source` -/

/-- A Python argument that may be a single string or a list of strings
(the `isinstance(packages, basestring)` dichotomy in `apt_install`). -/
inductive PyStrOrList where
  | str (s : String)
  | list (l : List String)
deriving DecidableEq

/-- `apt_install(packages, options, fatal)`: build
`['apt-get', '-y'] + options + ['install']` followed by the package
argument(s), log, then run the command (checked when `fatal`).
The log text (a Python `format` of the two arguments) is abbreviated. -/
def apt_install (packages : PyStrOrList) (options : List String) (fatal : Bool) :
    List SysEffect :=
  let cmd := ["apt-get", "-y"] ++ options ++ ["install"] ++
    (match packages with
     | .str s => [s]
     | .list l => l)
  [SysEffect.logMsg "Installing packages with options" none] ++
    (if fatal then [SysEffect.checkCall cmd] else [SysEffect.procCall cmd])

/-- `apt_update(fatal)`: run `apt-get update`, checked when `fatal`. -/
def apt_update (fatal : Bool) : List SysEffect :=
  if fatal then [SysEffect.checkCall ["apt-get", "update"]]
  else [SysEffect.procCall ["apt-get", "update"]]

/-- Python `source.startswith(prefix)`, modelled as a list prefix test
on the character lists. -/
def strStartsWith (s pre : String) : Bool :=
  pre.toList.isPrefixOf s.toList

/-- The external environment `add_source` reads: the apt cache (for the
keyring install of the `cloud:` branch) and `lsb_release` codename. -/
structure OSEnv where
  aptCache : AptCache
  distribCodename : String

/-- `CLOUD_ARCHIVE.format(pocket)`. -/
def cloudArchiveContent (pocket : String) : String :=
  "# Ubuntu Cloud Archive\ndeb http://ubuntu-cloud.archive.canonical.com/ubuntu "
    ++ pocket ++ " main\n"

/-- `PROPOSED_POCKET.format(release)`. -/
def proposedPocketContent (release : String) : String :=
  "# Proposed\ndeb http://archive.ubuntu.com/ubuntu "
    ++ release ++ "-proposed main universe multiverse restricted\n"

/-- `if key: subprocess.check_call(['apt-key', 'import', key])` —
the key import performed after every branch of `add_source`
(`None` and the empty string are falsy and skip the import). -/
def keyImportEffects : Option String → List SysEffect
  | some k => if k == "" then [] else [SysEffect.checkCall ["apt-key", "import", k]]
  | none => []

/-- `add_source(source, key)`: string-prefix dispatch.
`ppa:`/`http:` invoke `add-apt-repository`; `cloud:` installs the
cloud keyring (via `filter_installed_packages` + `apt_install(fatal=True)`)
and writes the cloud-archive list file with the pocket taken from
`source.split(':')[-1]`; the exact string `proposed` writes the proposed
list file for the running codename; anything else is a no-op.
Afterwards a truthy key is imported. -/
def add_source (env : OSEnv) (source : String) (key : Option String) : List SysEffect :=
  (if strStartsWith source "ppa:" || strStartsWith source "http:" then
    [SysEffect.checkCall ["add-apt-repository", "--yes", source]]
  else if strStartsWith source "cloud:" then
    let fr := filter_installed_packages env.aptCache ["ubuntu-cloud-keyring"]
    fr.2 ++ apt_install (.list fr.1) [] true ++
      [SysEffect.fileWrite "/etc/apt/sources.list.d/cloud-archive.list"
        (cloudArchiveContent ((source.splitOn ":").getLastD ""))]
  else if source == "proposed" then
    [SysEffect.fileWrite "/etc/apt/sources.list.d/proposed.list"
      (proposedPocketContent env.distribCodename)]
  else [])
  ++ keyImportEffects key

/-- An environment with an empty apt cache and the `precise` codename. -/
def emptyEnv : OSEnv := ⟨fun _ => none, "precise"⟩

theorem strStartsWith_prefix {s pre : String} (h : strStartsWith s pre = true) :
    pre.toList <+: s.toList := by
  simpa [strStartsWith, List.isPrefixOf_iff_prefix] using h

/-- A source starting with `https:` matches none of the four recognized
branch tests of `add_source`. -/
theorem https_source_matches_no_branch (source : String)
    (h : strStartsWith source "https:" = true) :
    strStartsWith source "ppa:" = false ∧ strStartsWith source "http:" = false ∧
      strStartsWith source "cloud:" = false ∧ (source == "proposed") = false := by
  have hhttps := strStartsWith_prefix h
  refine ⟨?_, ?_, ?_, ?_⟩
  · by_contra hb
    have hp := strStartsWith_prefix (by simpa using hb)
    have hpp : ("ppa:".toList : List Char) <+: "https:".toList :=
      List.prefix_of_prefix_length_le hp hhttps (by decide)
    exact absurd (Iff.mpr ( List.isPrefixOf_iff_prefix) hpp) (by decide)
  · by_contra hb
    have hp := strStartsWith_prefix (by simpa using hb)
    have hpp : ("http:".toList : List Char) <+: "https:".toList :=
      List.prefix_of_prefix_length_le hp hhttps (by decide)
    exact absurd (Iff.mpr ( List.isPrefixOf_iff_prefix) hpp) (by decide)
  · by_contra hb
    have hp := strStartsWith_prefix (by simpa using hb)
    have hpp : ("cloud:".toList : List Char) <+: "https:".toList :=
      List.prefix_of_prefix_length_le hp hhttps (by decide)
    exact absurd (Iff.mpr ( List.isPrefixOf_iff_prefix) hpp) (by decide)
  · by_contra hb
    have hs : source = "proposed" := by
      have := of_decide_eq_true (by simpa using hb)
      exact this
    subst hs
    exact absurd h (by decide)

/-- C7 counterexample: an `https:` source descriptor does not invoke the
repository-add external tool; `add_source` performs no effect at all for
it (the unrecognized no-op branch), refuting the claim that `https:`
sources are dispatched to `add-apt-repository`. -/
theorem add_source_https_counterexample :
    strStartsWith "https://example.com/ubuntu precise main" "https:" = true ∧
      add_source emptyEnv "https://example.com/ubuntu precise main" none = [] := by
  constructor
  · decide
  · rfl

/-- C7 (amended): among source descriptors beginning with `ppa:`, `http:`
or `https:`, exactly those beginning with `ppa:` or `http:` invoke the
repository-add external tool with the raw source string; an `https:`
source falls into the unrecognized no-op branch (only a truthy key would
still be imported). -/
theorem add_source_repo_add_dispatch (env : OSEnv) (source : String) (key : Option String)
    (h : strStartsWith source "ppa:" = true ∨ strStartsWith source "http:" = true ∨
      strStartsWith source "https:" = true) :
    add_source env source key =
      (if strStartsWith source "ppa:" || strStartsWith source "http:" then
        [SysEffect.checkCall ["add-apt-repository", "--yes", source]]
      else []) ++ keyImportEffects key := by
  rcases h with h | h | h
  · unfold add_source
    rw [h]
    simp
  · unfold add_source
    rw [h]
    simp
  · obtain ⟨h1, h2, h3, h4⟩ := https_source_matches_no_branch source h
    unfold add_source
    rw [h1, h2, h3, h4]
    simp

/-- Witness for C7 (amended) at an `https:` source with a key. -/
theorem add_source_repo_add_dispatch_witness :
    add_source emptyEnv "https://example.com/x" (some "akey") =
      [SysEffect.checkCall ["apt-key", "import", "akey"]] := by
  have h := add_source_repo_add_dispatch emptyEnv "https://example.com/x" (some "akey")
    (Or.inr (Or.inr (by decide)))
  simpa using h

/-! ## `configure_sources` -/

/-- Errors raised by `configure_sources`: the module's `SourceConfigError`
and the Python `TypeError` from `len(None)`. -/
inductive ConfigError where
  | sourceConfigError (msg : String)
  | typeError (msg : String)
deriving DecidableEq

/-- Call-boundary effects of `configure_sources`: the `add_source(src, key)`
calls and the final `apt_update(fatal=True)`. -/
inductive ConfigEffect where
  | addSourceCall (source : String) (key : Option String)
  | aptUpdateCall (fatal : Bool)
deriving DecidableEq

/-- The decoded `install_sources` configuration value:
a single string or a list of strings. -/
inductive SourcesVal where
  | str (s : String)
  | list (l : List String)
deriving DecidableEq

/-- The decoded `install_keys` configuration value:
a single string or a list of optional strings (`null` entries allowed). -/
inductive KeysVal where
  | str (s : String)
  | list (l : List (Option String))
deriving DecidableEq

/-- Python `len(sources)` (a string has its character count). -/
def svLen : SourcesVal → Nat
  | .str s => s.length
  | .list l => l.length

/-- Python `sources[i]` (indexing a string yields a one-character string). -/
def svIdx : SourcesVal → Nat → String
  | .str s, i => String.singleton (s.toList.getD i ' ')
  | .list l, i => l.getD i ""

/-- Python `len(keys)` for a non-`None` keys value. -/
def kvLen : KeysVal → Nat
  | .str s => s.length
  | .list l => l.length

/-- Python `keys[i]` for a non-`None` keys value. -/
def kvIdx : KeysVal → Nat → Option String
  | .str s, i => some (String.singleton (s.toList.getD i ' '))
  | .list l, i => l.getD i none

/-- `configure_sources(update, ...)` after the configuration values are
decoded: the first match arms mirror
`isinstance(sources, basestring) and (keys is None or isinstance(keys, basestring))`;
otherwise `len(sources) == len(keys)` is checked (`len(None)` raises
`TypeError`) and `add_source` runs once per index.  Returns the effects
performed and the error raised, if any. -/
def configure_sources (update : Bool) (sources : SourcesVal) (keys : Option KeysVal) :
    List ConfigEffect × Option ConfigError :=
  let updateEffects : List ConfigEffect :=
    if update then [ConfigEffect.aptUpdateCall true] else []
  match sources, keys with
  | .str s, none => ([ConfigEffect.addSourceCall s none] ++ updateEffects, none)
  | .str s, some (.str k) => ([ConfigEffect.addSourceCall s (some k)] ++ updateEffects, none)
  | _, _ =>
    match keys with
    | none => ([], some (ConfigError.typeError "object of type NoneType has no len()"))
    | some kv =>
      if svLen sources ≠ kvLen kv then
        ([], some (ConfigError.sourceConfigError
          "Install sources and keys lists are different lengths"))
      else
        (((List.range (svLen sources)).map fun i =>
            ConfigEffect.addSourceCall (svIdx sources i) (kvIdx kv i)) ++ updateEffects,
         none)

/-- C5: with list-valued sources and keys of unequal length,
`configure_sources` raises `SourceConfigError` and performs no
`add_source` call (and no update). -/
theorem configure_sources_length_mismatch (update : Bool)
    (ls : List String) (ks : List (Option String)) (h : ls.length ≠ ks.length) :
    configure_sources update (.list ls) (some (.list ks)) =
      ([], some (ConfigError.sourceConfigError
        "Install sources and keys lists are different lengths")) := by
  unfold configure_sources
  simp only [svLen, kvLen]
  rw [if_pos h]

/-- Witness for C5 at sources of length 2 and keys of length 1. -/
theorem configure_sources_length_mismatch_witness :
    configure_sources true (.list ["sourcea", "sourceb"]) (some (.list [some "keya"])) =
      ([], some (ConfigError.sourceConfigError
        "Install sources and keys lists are different lengths")) :=
  configure_sources_length_mismatch true ["sourcea", "sourceb"] [some "keya"] (by decide)

theorem range_map_addSource (ls : List String) (ks : List (Option String))
    (h : ls.length = ks.length) :
    ((List.range ls.length).map fun i =>
        ConfigEffect.addSourceCall (ls.getD i "") (ks.getD i none)) =
      (ls.zip ks).map fun p => ConfigEffect.addSourceCall p.1 p.2 := by
  induction ls generalizing ks with
  | nil => simp
  | cons a ls ih =>
    cases ks with
    | nil => simp at h
    | cons b ks =>
      have hlen : ls.length = ks.length := by simpa using h
      simp only [List.length_cons]
      rw [List.range_succ_eq_map, List.map_cons, List.map_map]
      simp only [List.zip_cons_cons, List.map_cons]
      apply congrArg₂ List.cons
      · rfl
      · exact ih ks hlen

/-- C6: `configure_sources` with a single-string sources value and keys
absent or a single string calls `add_source` exactly once with that pair;
with equal-length list values it calls `add_source` once per index pair in
list order (the zip of the two lists); and when `update` is true the
package index is refreshed with `fatal=True` after all sources are added. -/
theorem configure_sources_pairs (update : Bool) :
    (∀ s, configure_sources update (.str s) none =
      ([ConfigEffect.addSourceCall s none] ++
        (if update then [ConfigEffect.aptUpdateCall true] else []), none)) ∧
    (∀ s k, configure_sources update (.str s) (some (.str k)) =
      ([ConfigEffect.addSourceCall s (some k)] ++
        (if update then [ConfigEffect.aptUpdateCall true] else []), none)) ∧
    (∀ ls ks, ls.length = ks.length →
      configure_sources update (.list ls) (some (.list ks)) =
        ((ls.zip ks).map (fun p => ConfigEffect.addSourceCall p.1 p.2) ++
          (if update then [ConfigEffect.aptUpdateCall true] else []), none)) := by
  refine ⟨fun s => rfl, fun s k => rfl, fun ls ks h => ?_⟩
  unfold configure_sources
  simp only [svLen, kvLen]
  rw [if_neg (by simpa using h)]
  have hmap := range_map_addSource ls ks h
  simp only [svIdx, kvIdx]
  rw [hmap]

/-- Witness for C6 at sources `["a", "b"]`, keys `["k", null]`, update on. -/
theorem configure_sources_pairs_witness :
    configure_sources true (.str "s") none =
      ([ConfigEffect.addSourceCall "s" none, ConfigEffect.aptUpdateCall true], none) ∧
    configure_sources true (.list ["a", "b"]) (some (.list [some "k", none])) =
      ([ConfigEffect.addSourceCall "a" (some "k"), ConfigEffect.addSourceCall "b" none,
        ConfigEffect.aptUpdateCall true], none) := by
  have h := configure_sources_pairs true
  exact ⟨(h.1 "s").trans (by decide), (h.2.2 ["a", "b"] [some "k", none] rfl).trans (by decide)⟩

/-- C10: when the decoded sources value is a list and the keys
configuration value is absent (`None`), `configure_sources` falls into
the length-check branch, where `len(None)` raises `TypeError` (not
`SourceConfigError`), with zero `add_source` calls performed. -/
theorem configure_sources_list_keys_none (update : Bool) (ls : List String) :
    configure_sources update (.list ls) none =
      ([], some (ConfigError.typeError "object of type NoneType has no len()")) := rfl

/-! ## Fetch handler registry and dispatcher -/

/-- A Python value returned by `can_handle`: the singleton `True` (the
only value passing the `is True` identity test), `False`, a reason
string, or `None`. -/
inductive CanHandleVal where
  | pyTrue
  | pyFalse
  | pyStr (s : String)
  | pyNone
deriving DecidableEq

/-- The outcome of a handler's `install(source)` call: a returned value
(`none` modelling Python `None`), an `UnhandledSource` exception, or any
other exception. -/
inductive InstallOutcome where
  | ok (path : Option String)
  | unhandled (msg : String)
  | error (msg : String)
deriving DecidableEq

/-- Does the install call raise something other than `UnhandledSource`? -/
def isErrorOutcome : InstallOutcome → Bool
  | .error _ => true
  | _ => false

/-- Does the install call raise `UnhandledSource`? -/
def isUnhandledOutcome : InstallOutcome → Bool
  | .unhandled _ => true
  | _ => false

/-- A fetch handler: its `can_handle` and `install` behaviour per source. -/
structure Handler where
  can_handle : String → CanHandleVal
  install : String → InstallOutcome

/-- A call made by the dispatcher, recording the handler's position in
the plugin list and the argument passed. -/
inductive DispatchCall where
  | canHandleCall (i : Nat) (source : String)
  | installCall (i : Nat) (source : String)
deriving DecidableEq

/-- An error escaping `install_remote`: the dispatcher's own
`UnhandledSource` or a propagated handler exception. -/
inductive FetchError where
  | unhandledSource (msg : String)
  | handlerError (msg : String)
deriving DecidableEq

/-- The list comprehension
`[h for h in plugins() if h.can_handle(source) is True]`, keeping each
eligible handler paired with its position in the plugin list. -/
def eligibleFrom (source : String) : Nat → List Handler → List (Nat × Handler)
  | _, [] => []
  | i, h :: rest =>
    if h.can_handle source = CanHandleVal.pyTrue then
      (i, h) :: eligibleFrom source (i + 1) rest
    else eligibleFrom source (i + 1) rest

/-- The eligible handlers of a plugin list. -/
def eligible (plugins : List Handler) (source : String) : List (Nat × Handler) :=
  eligibleFrom source 0 plugins

/-- The `for handler in handlers` loop of `install_remote`: every install
result overwrites `installed_to`; `UnhandledSource` is caught (`pass`)
leaving `installed_to` unchanged; any other exception propagates at once.
Returns the install-call trace and either the propagated error or the
final value of `installed_to`. -/
def dispatchLoop (source : String) :
    List (Nat × Handler) → Option String → List DispatchCall × Except FetchError (Option String)
  | [], installed_to => ([], Except.ok installed_to)
  | (i, h) :: rest, installed_to =>
    match h.install source with
    | .ok p =>
      let r := dispatchLoop source rest p
      (DispatchCall.installCall i source :: r.1, r.2)
    | .unhandled _ =>
      let r := dispatchLoop source rest installed_to
      (DispatchCall.installCall i source :: r.1, r.2)
    | .error m => ([DispatchCall.installCall i source], Except.error (FetchError.handlerError m))

/-- The tail of `install_remote` after the loop: a propagated exception
stays; otherwise `if not installed_to: raise UnhandledSource(...)` and
the truthy path is returned. -/
def finishResult (r : Except FetchError (Option String)) (source : String) :
    Except FetchError String :=
  match r with
  | .error e => .error e
  | .ok installed_to =>
    if pyTruthyOptStr installed_to then .ok (installed_to.getD "")
    else .error (.unhandledSource ("No handler found for source " ++ source))

/-- `install_remote(source)`: filter the plugins by
`can_handle(source) is True` (the comprehension calls `can_handle` on
every plugin in order), run the install loop from `installed_to = None`,
then raise `UnhandledSource` naming the source when `installed_to` is
falsy, otherwise return it. -/
def install_remote (plugins : List Handler) (source : String) :
    List DispatchCall × Except FetchError String :=
  (((List.range plugins.length).map fun i => DispatchCall.canHandleCall i source) ++
      (dispatchLoop source (eligible plugins source) none).1,
   finishResult (dispatchLoop source (eligible plugins source) none).2 source)

theorem install_remote_fst (plugins : List Handler) (source : String) :
    (install_remote plugins source).1 =
      ((List.range plugins.length).map fun i => DispatchCall.canHandleCall i source) ++
        (dispatchLoop source (eligible plugins source) none).1 := rfl

theorem install_remote_snd (plugins : List Handler) (source : String) :
    (install_remote plugins source).2 =
      finishResult (dispatchLoop source (eligible plugins source) none).2 source := rfl

/-- H1 of the repository's dispatcher test: declines with a reason string. -/
def handler1 : Handler := ⟨fun _ => .pyStr "Nope", fun _ => .ok (some "h1")⟩

/-- H2 of the repository's dispatcher test: accepts, raises `UnhandledSource`. -/
def handler2 : Handler := ⟨fun _ => .pyTrue, fun _ => .unhandled ""⟩

/-- H3 of the repository's dispatcher test: accepts and installs to `foo`. -/
def handler3 : Handler := ⟨fun _ => .pyTrue, fun _ => .ok (some "foo")⟩

/-- C2: with H1 (declines), H2 (accepts, raises unhandled), H3 (accepts,
installs to `foo`) registered in that order, `install_remote` calls
`can_handle` on all three with the url, never calls `H1.install`, calls
`H2.install` then `H3.install`, and returns H3's result. -/
theorem install_remote_dispatch_order (url : String) :
    install_remote [handler1, handler2, handler3] url =
      ([DispatchCall.canHandleCall 0 url, DispatchCall.canHandleCall 1 url,
        DispatchCall.canHandleCall 2 url,
        DispatchCall.installCall 1 url, DispatchCall.installCall 2 url],
       Except.ok "foo") := rfl

/-- A handler that accepts everything and installs to `patha`. -/
def handlerA : Handler := ⟨fun _ => .pyTrue, fun _ => .ok (some "patha")⟩

/-- A handler that accepts everything and installs to `pathb`. -/
def handlerB : Handler := ⟨fun _ => .pyTrue, fun _ => .ok (some "pathb")⟩

/-- C1 counterexample: with two eligible handlers whose installs both
return non-empty paths, dispatch does not stop at the first success —
the second handler's install is still called and its path (not the
first's) is returned. -/
theorem install_remote_first_wins_counterexample :
    handlerA.install "u" = .ok (some "patha") ∧
      (install_remote [handlerA, handlerB] "u").2 = Except.ok "pathb" ∧
      DispatchCall.installCall 1 "u" ∈ (install_remote [handlerA, handlerB] "u").1 := by
  refine ⟨rfl, rfl, ?_⟩
  decide

theorem dispatchLoop_trace_all (source : String) :
    ∀ (es : List (Nat × Handler)) (acc : Option String),
      es.all (fun e => !isErrorOutcome (e.2.install source)) = true →
      (dispatchLoop source es acc).1 = es.map fun e => DispatchCall.installCall e.1 source := by
  intro es
  induction es with
  | nil => intro acc _; rfl
  | cons e rest ih =>
    intro acc hall
    obtain ⟨i, h⟩ := e
    have hh : !isErrorOutcome (h.install source) = true := by
      have := List.all_eq_true.mp hall (i, h) (List.mem_cons_self _ _)
      simpa using this
    have hrest : rest.all (fun e => !isErrorOutcome (e.2.install source)) = true := by
      refine List.all_eq_true.mpr fun e he => ?_
      exact List.all_eq_true.mp hall e (List.mem_cons_of_mem _ he)
    unfold dispatchLoop
    cases hi : h.install source with
    | ok p => simp [ih p hrest]
    | unhandled m => simp [ih acc hrest]
    | error m => rw [hi] at hh; simp [isErrorOutcome] at hh

theorem dispatchLoop_last_ok (source : String) :
    ∀ (pre : List (Nat × Handler)) (acc : Option String) (i : Nat) (h : Handler) (p : String),
      pre.all (fun e => !isErrorOutcome (e.2.install source)) = true →
      h.install source = .ok (some p) →
      (dispatchLoop source (pre ++ [(i, h)]) acc).2 = Except.ok (some p) := by
  intro pre
  induction pre with
  | nil =>
    intro acc i h p _ hinst
    simp [dispatchLoop, hinst]
  | cons e rest ih =>
    intro acc i h p hall hinst
    obtain ⟨j, hj⟩ := e
    have hh : !isErrorOutcome (hj.install source) = true := by
      have := List.all_eq_true.mp hall (j, hj) (List.mem_cons_self _ _)
      simpa using this
    have hrest : rest.all (fun e => !isErrorOutcome (e.2.install source)) = true := by
      refine List.all_eq_true.mpr fun e he => ?_
      exact List.all_eq_true.mp hall e (List.mem_cons_of_mem _ he)
    rw [List.cons_append]
    unfold dispatchLoop
    cases hi : hj.install source with
    | ok q => simp [ih q i h p hrest hinst]
    | unhandled m => simp [ih acc i h p hrest hinst]
    | error m => rw [hi] at hh; simp [isErrorOutcome] at hh

/-- C1 (amended): provided no eligible handler's install raises an
exception other than `UnhandledSource`, `install_remote` calls `install`
on *every* eligible handler in list order — it does not stop at the first
success — and, because each completed install overwrites the result, when
the *last* eligible handler's install returns a non-empty path, that path
is the one returned, irrespective of earlier successes. -/
theorem install_remote_last_success_wins (plugins : List Handler) (source : String)
    (hne : (eligible plugins source).all
      (fun e => !isErrorOutcome (e.2.install source)) = true) :
    (install_remote plugins source).1 =
      ((List.range plugins.length).map fun i => DispatchCall.canHandleCall i source) ++
        ((eligible plugins source).map fun e => DispatchCall.installCall e.1 source) ∧
    (∀ pre i h p, eligible plugins source = pre ++ [(i, h)] →
      h.install source = .ok (some p) → p ≠ "" →
      (install_remote plugins source).2 = Except.ok p) := by
  constructor
  · rw [install_remote_fst,
      dispatchLoop_trace_all source (eligible plugins source) none hne]
  · intro pre i h p heq hinst hp
    have hpre : pre.all (fun e => !isErrorOutcome (e.2.install source)) = true := by
      rw [heq] at hne
      refine List.all_eq_true.mpr fun e he => ?_
      exact List.all_eq_true.mp hne e (List.mem_append_left _ he)
    rw [install_remote_snd, heq, dispatchLoop_last_ok source pre none i h p hpre hinst]
    have hpt : pyTruthyOptStr (some p) = true := by
      simp [pyTruthyOptStr, hp]
    simp [finishResult, hpt]

/-- Witness for C1 (amended) with the two always-succeeding handlers. -/
theorem install_remote_last_success_wins_witness :
    (install_remote [handlerA, handlerB] "u").1 =
      [DispatchCall.canHandleCall 0 "u", DispatchCall.canHandleCall 1 "u",
        DispatchCall.installCall 0 "u", DispatchCall.installCall 1 "u"] ∧
      (install_remote [handlerA, handlerB] "u").2 = Except.ok "pathb" := by
  have h := install_remote_last_success_wins [handlerA, handlerB] "u" (by decide)
  exact ⟨h.1.trans (by decide), h.2 [(0, handlerA)] 1 handlerB "pathb" rfl rfl (by decide)⟩

theorem eligibleFrom_nil_of_none_true (source : String) :
    ∀ (plugins : List Handler) (k : Nat),
      plugins.all (fun hh => !(hh.can_handle source == CanHandleVal.pyTrue)) = true →
      eligibleFrom source k plugins = [] := by
  intro plugins
  induction plugins with
  | nil => intro k _; rfl
  | cons hh rest ih =>
    intro k hall
    have h1 : ¬ hh.can_handle source = CanHandleVal.pyTrue := by
      have := List.all_eq_true.mp hall hh (List.mem_cons_self _ _)
      simpa using this
    have hrest : rest.all (fun hh => !(hh.can_handle source == CanHandleVal.pyTrue)) = true := by
      refine List.all_eq_true.mpr fun e he => ?_
      exact List.all_eq_true.mp hall e (List.mem_cons_of_mem _ he)
    unfold eligibleFrom
    rw [if_neg h1]
    exact ih (k + 1) hrest

theorem dispatchLoop_all_unhandled (source : String) :
    ∀ (es : List (Nat × Handler)) (acc : Option String),
      es.all (fun e => isUnhandledOutcome (e.2.install source)) = true →
      (dispatchLoop source es acc).2 = Except.ok acc := by
  intro es
  induction es with
  | nil => intro acc _; rfl
  | cons e rest ih =>
    intro acc hall
    obtain ⟨i, h⟩ := e
    have hh : isUnhandledOutcome (h.install source) = true :=
      List.all_eq_true.mp hall (i, h) (List.mem_cons_self _ _)
    have hrest : rest.all (fun e => isUnhandledOutcome (e.2.install source)) = true := by
      refine List.all_eq_true.mpr fun e he => ?_
      exact List.all_eq_true.mp hall e (List.mem_cons_of_mem _ he)
    unfold dispatchLoop
    cases hi : h.install source with
    | ok p => rw [hi] at hh; simp [isUnhandledOutcome] at hh
    | unhandled m => simp [ih acc hrest]
    | error m => rw [hi] at hh; simp [isUnhandledOutcome] at hh

/-- C3: if no plugin's `can_handle` returns `True`, or every eligible
handler's install raises `UnhandledSource`, then `install_remote` raises
`UnhandledSource` with a message naming the original source string;
moreover a handler raising `UnhandledSource` is caught and dispatch
continues with the next eligible handler, the accumulator unchanged. -/
theorem install_remote_unhandled_error (plugins : List Handler) (source : String)
    (h : plugins.all (fun hh => !(hh.can_handle source == CanHandleVal.pyTrue)) = true ∨
      (eligible plugins source).all
        (fun e => isUnhandledOutcome (e.2.install source)) = true) :
    (install_remote plugins source).2 =
      Except.error (.unhandledSource ("No handler found for source " ++ source)) ∧
    (∀ i hh rest acc m, hh.install source = .unhandled m →
      (dispatchLoop source ((i, hh) :: rest) acc).2 = (dispatchLoop source rest acc).2) := by
  constructor
  · rcases h with h | h
    · rw [install_remote_snd, show eligible plugins source = [] from
        eligibleFrom_nil_of_none_true source plugins 0 h]
      rfl
    · rw [install_remote_snd, dispatchLoop_all_unhandled source (eligible plugins source) none h]
      rfl
  · intro i hh rest acc m hinst
    simp [dispatchLoop, hinst]

/-- Witness for C3: H1 alone yields the unhandled-source error (none
accept), and an `UnhandledSource` from H2 leaves the loop result as if
H2 were absent. -/
theorem install_remote_unhandled_error_witness :
    (install_remote [handler1] "u").2 =
      Except.error (.unhandledSource ("No handler found for source " ++ "u")) ∧
      (dispatchLoop "u" [(0, handler2)] none).2 = (dispatchLoop "u" [] none).2 := by
  have t := install_remote_unhandled_error [handler1] "u" (Or.inl (by decide))
  exact ⟨t.1, t.2 0 handler2 [] none "" rfl⟩

theorem mem_eligibleFrom (source : String) :
    ∀ (plugins : List Handler) (k i : Nat) (h : Handler),
      (i, h) ∈ eligibleFrom source k plugins →
      k ≤ i ∧ plugins.get? (i - k) = some h ∧ h.can_handle source = CanHandleVal.pyTrue := by
  intro plugins
  induction plugins with
  | nil => intro k i h hmem; cases hmem
  | cons hh rest ih =>
    intro k i h hmem
    unfold eligibleFrom at hmem
    by_cases hc : hh.can_handle source = CanHandleVal.pyTrue
    · rw [if_pos hc] at hmem
      rcases List.mem_cons.mp hmem with heq | htail
      · obtain ⟨hik, hhh⟩ := Prod.mk.injEq .. ▸ heq
        injection heq with h1 h2
        subst h1; subst h2
        exact ⟨Nat.le_refl _, by simp, hc⟩
      · obtain ⟨hle, hget, hcan⟩ := ih (k + 1) i h htail
        refine ⟨Nat.le_trans (Nat.le_succ _) hle, ?_, hcan⟩
        have hik : i - k = (i - (k + 1)) + 1 := by omega
        rw [hik]
        simpa using hget
    · rw [if_neg hc] at hmem
      obtain ⟨hle, hget, hcan⟩ := ih (k + 1) i h hmem
      refine ⟨Nat.le_trans (Nat.le_succ _) hle, ?_, hcan⟩
      have hik : i - k = (i - (k + 1)) + 1 := by omega
      rw [hik]
      simpa using hget

theorem mem_dispatchLoop_trace (source : String) :
    ∀ (es : List (Nat × Handler)) (acc : Option String) (i : Nat) (s : String),
      DispatchCall.installCall i s ∈ (dispatchLoop source es acc).1 →
      s = source ∧ ∃ h, (i, h) ∈ es := by
  intro es
  induction es with
  | nil => intro acc i s hmem; cases hmem
  | cons e rest ih =>
    intro acc i s hmem
    obtain ⟨j, h⟩ := e
    unfold dispatchLoop at hmem
    cases hi : h.install source with
    | ok p =>
      rw [hi] at hmem
      rcases List.mem_cons.mp hmem with heq | htail
      · injection heq with h1 h2
        exact ⟨h2, h, by rw [h1]; exact List.mem_cons_self _ _⟩
      · obtain ⟨hs, hh, hmm⟩ := ih p i s htail
        exact ⟨hs, hh, List.mem_cons_of_mem _ hmm⟩
    | unhandled m =>
      rw [hi] at hmem
      rcases List.mem_cons.mp hmem with heq | htail
      · injection heq with h1 h2
        exact ⟨h2, h, by rw [h1]; exact List.mem_cons_self _ _⟩
      · obtain ⟨hs, hh, hmm⟩ := ih acc i s htail
        exact ⟨hs, hh, List.mem_cons_of_mem _ hmm⟩
    | error m =>
      rw [hi] at hmem
      rcases List.mem_cons.mp hmem with heq | htail
      · injection heq with h1 h2
        exact ⟨h2, h, by rw [h1]; exact List.mem_cons_self _ _⟩
      · cases htail

/-- C4: `install_remote` attempts `install` only on handlers whose
`can_handle(source)` is exactly the value `True`: an install call on the
handler at position `i` in the plugin list implies that handler's
`can_handle` returned `True` (so any other return value, a reason string
included, excludes the handler from dispatch). -/
theorem install_remote_install_requires_can_handle
    (plugins : List Handler) (source : String) (i : Nat)
    (h : DispatchCall.installCall i source ∈ (install_remote plugins source).1) :
    ∃ hh, plugins.get? i = some hh ∧ hh.can_handle source = CanHandleVal.pyTrue := by
  unfold install_remote at h
  rcases List.mem_append.mp h with hcan | hloop
  · exfalso
    obtain ⟨j, _, hj⟩ := List.mem_map.mp hcan
    cases hj
  · obtain ⟨_, hh, hmem⟩ := mem_dispatchLoop_trace source (eligible plugins source) none i source hloop
    obtain ⟨_, hget, hcanh⟩ := mem_eligibleFrom source plugins 0 i hh hmem
    exact ⟨hh, by simpa using hget, hcanh⟩

/-- Witness for C4: in `[handler2, handler3]` the install call on position 1
certifies `handler3.can_handle` returned `True`. -/
theorem install_remote_install_requires_can_handle_witness :
    (DispatchCall.installCall 1 "u" ∈ (install_remote [handler2, handler3] "u").1) ∧
      ∃ hh, [handler2, handler3].get? 1 = some hh ∧
        hh.can_handle "u" = CanHandleVal.pyTrue := by
  refine ⟨by decide, ?_⟩
  exact install_remote_install_requires_can_handle [handler2, handler3] "u" 1 (by decide)

/-! ## URL utilities of the base handler contract

`parse_url` delegates to Python 2.7 `urlparse.urlparse` and `base_url`
rebuilds the URL with `urlunparse` after blanking `parts[4:]` (query and
fragment).  The embedding below mirrors the CPython 2.7 `urlparse`
module on character lists. -/

/-- `scheme_chars` of the urlparse module. -/
def schemeChar (c : Char) : Bool :=
  c.isAlpha || c.isDigit || c == '+' || c == '-' || c == '.'

/-- `str.lower()` on a character list. -/
def lowerChars (l : List Char) : List Char := l.map Char.toLower

/-- `s.split(c, 1)`: the part before the first occurrence of `c` and,
when the separator occurs, the part after it. -/
def splitAtFirst (c : Char) : List Char → List Char × Option (List Char)
  | [] => ([], none)
  | a :: rest =>
    if a = c then ([], some rest)
    else
      let r := splitAtFirst c rest
      (a :: r.1, r.2)

/-- `_splitnetloc(url, 2)` after the leading `//` is dropped: the part up
to the first `/`, `?` or `#` and the remainder. -/
def splitnetloc : List Char → List Char × List Char
  | [] => ([], [])
  | c :: rest =>
    if c = '/' ∨ c = '?' ∨ c = '#' then ([], c :: rest)
    else
      let r := splitnetloc rest
      (c :: r.1, r.2)

/-- The record returned by `urlsplit`. -/
structure SplitResult where
  scheme : List Char
  netloc : List Char
  path : List Char
  query : List Char
  fragment : List Char
deriving DecidableEq

/-- The tail of `urlsplit` after the netloc extraction: the IPv6 bracket
validation (`ValueError` on imbalance), then the fragment split and the
query split on the remaining url, in that order. -/
def urlsplitAfterNetloc (scheme : List Char) (nl : List Char × List Char) :
    Except Unit SplitResult :=
  if (nl.1.contains '[' && !nl.1.contains ']') ||
      (nl.1.contains ']' && !nl.1.contains '[') then
    .error ()
  else
    .ok ⟨scheme, nl.1,
      (splitAtFirst '?' (splitAtFirst '#' nl.2).1).1,
      ((splitAtFirst '?' (splitAtFirst '#' nl.2).1).2).getD [],
      ((splitAtFirst '#' nl.2).2).getD []⟩

/-- The tail of `urlsplit` after scheme processing:
`if url[:2] == '//': netloc, url = _splitnetloc(url, 2)`, then the
bracket check and the fragment/query splits. -/
def urlsplitFinish (scheme url : List Char) : Except Unit SplitResult :=
  if url.take 2 == "//".toList then
    urlsplitAfterNetloc scheme (splitnetloc (url.drop 2))
  else
    urlsplitAfterNetloc scheme ([], url)

/-- `urlsplit(url)` with `allow_fragments=True`: find the first `:`;
when the part before it is nonempty (`i > 0`) and is either `http` (the
fast path) or made of scheme characters with the rest not a bare port
number, split the scheme off lowercased; otherwise no scheme. -/
def urlsplit (url : List Char) : Except Unit SplitResult :=
  match splitAtFirst ':' url with
  | (before, some after) =>
    if before.isEmpty then urlsplitFinish [] url
    else if before == "http".toList then urlsplitFinish (lowerChars before) after
    else if before.all schemeChar then
      if after.isEmpty || !(after.all Char.isDigit) then
        urlsplitFinish (lowerChars before) after
      else urlsplitFinish [] url
    else urlsplitFinish [] url
  | (_, none) => urlsplitFinish [] url

/-- `url.find(c)`: index of the first occurrence. -/
def findIdxOf (c : Char) : List Char → Option Nat
  | [] => none
  | x :: rest =>
    if x = c then some 0
    else (findIdxOf c rest).map (· + 1)

/-- `url.rfind(c)`: index of the last occurrence. -/
def rfindIdx (c : Char) (l : List Char) : Option Nat :=
  match findIdxOf c l.reverse with
  | some j => some (l.length - 1 - j)
  | none => none

/-- `url.find(c, start)`. -/
def findIdxFrom (c : Char) (start : Nat) (l : List Char) : Option Nat :=
  match findIdxOf c (l.drop start) with
  | some j => some (start + j)
  | none => none

/-- `_splitparams(url)`: split at the first `;` at or after the last `/`
(or the first `;` at all when there is no `/`); the slice pair
`url[:i], url[i+1:]` — including the `url[:-1], url[0:]` outcome of the
guardless `else` branch when `;` is absent, which `urlparse` never
reaches because it tests `';' in url` first. -/
def splitparams (l : List Char) : List Char × List Char :=
  if l.contains '/' then
    match rfindIdx '/' l with
    | some s =>
      match findIdxFrom ';' s l with
      | some i => (l.take i, l.drop (i + 1))
      | none => (l, [])
    | none => (l, [])
  else
    match findIdxOf ';' l with
    | some i => (l.take i, l.drop (i + 1))
    | none => (l.dropLast, l)

/-- The record returned by `urlparse` (a 6-tuple in Python). -/
structure ParseResult where
  scheme : List Char
  netloc : List Char
  path : List Char
  params : List Char
  query : List Char
  fragment : List Char
deriving DecidableEq

/-- `uses_params` of the urlparse module. -/
def usesParams : List (List Char) :=
  ["ftp".toList, "hdl".toList, "prospero".toList, "http".toList, "imap".toList,
   "https".toList, "shttp".toList, "rtsp".toList, "rtspu".toList, "sip".toList,
   "sips".toList, "mms".toList, [], "sftp".toList, "tel".toList]

/-- `urlparse(url)`: `urlsplit`, then parameter separation for schemes in
`uses_params` when the path contains `;`. -/
def urlparse (url : List Char) : Except Unit ParseResult :=
  match urlsplit url with
  | .error e => .error e
  | .ok r =>
    if usesParams.contains r.scheme && r.path.contains ';' then
      let pp := splitparams r.path
      .ok ⟨r.scheme, r.netloc, pp.1, pp.2, r.query, r.fragment⟩
    else
      .ok ⟨r.scheme, r.netloc, r.path, [], r.query, r.fragment⟩

/-- `urlunsplit((scheme, netloc, url, query, fragment))`. -/
def urlunsplit (scheme netloc url query fragment : List Char) : List Char :=
  let url1 :=
    if !netloc.isEmpty || (!url.isEmpty && url.take 2 == "//".toList) then
      '/' :: '/' :: (netloc ++
        (if !url.isEmpty && !(url.take 1 == "/".toList) then '/' :: url else url))
    else url
  let url2 := if !scheme.isEmpty then scheme ++ ':' :: url1 else url1
  let url3 := if !query.isEmpty then url2 ++ '?' :: query else url2
  if !fragment.isEmpty then url3 ++ '#' :: fragment else url3

/-- `urlunparse`: rejoin params to the path with `;`, then `urlunsplit`. -/
def urlunparse (r : ParseResult) : List Char :=
  urlunsplit r.scheme r.netloc
    (if !r.params.isEmpty then r.path ++ ';' :: r.params else r.path)
    r.query r.fragment

/-- `base_url(url)`: `parts = list(parse_url(url)); parts[4:] = ['', '']`
(blank the query and the fragment), then `urlunparse(parts)`. -/
def base_url (url : List Char) : Except Unit (List Char) :=
  match urlparse url with
  | .error e => .error e
  | .ok r => .ok (urlunparse ⟨r.scheme, r.netloc, r.path, r.params, [], []⟩)

/-- The optional `?query` / `#fragment` suffix of a URL. -/
def qfSuffix (q f : Option (List Char)) : List Char :=
  (match q with
   | none => []
   | some qq => '?' :: qq) ++
  (match f with
   | none => []
   | some ff => '#' :: ff)

theorem splitAtFirst_not_mem (c : Char) (a : List Char) (h : c ∉ a) :
    splitAtFirst c a = (a, none) := by
  induction a with
  | nil => rfl
  | cons x rest ih =>
    have hx : ¬ x = c := fun he => h (by rw [he]; exact List.mem_cons_self _ _)
    have h1 : c ∉ rest := fun hm => h (List.mem_cons_of_mem _ hm)
    simp [splitAtFirst, hx, ih h1]

theorem splitAtFirst_append (c : Char) (a b : List Char) (h : c ∉ a) :
    splitAtFirst c (a ++ b) = (a ++ (splitAtFirst c b).1, (splitAtFirst c b).2) := by
  induction a with
  | nil => rfl
  | cons x rest ih =>
    have hx : ¬ x = c := fun he => h (by rw [he]; exact List.mem_cons_self _ _)
    have h1 : c ∉ rest := fun hm => h (List.mem_cons_of_mem _ hm)
    simp [splitAtFirst, hx, ih h1]

theorem splitAtFirst_find (c : Char) (a b : List Char) (h : c ∉ a) :
    splitAtFirst c (a ++ c :: b) = (a, some b) := by
  rw [splitAtFirst_append c a (c :: b) h]
  simp [splitAtFirst]

theorem splitnetloc_append (a b : List Char)
    (ha : ∀ x ∈ a, ¬(x = '/' ∨ x = '?' ∨ x = '#'))
    (hb : b = [] ∨ ∃ x r, b = x :: r ∧ (x = '/' ∨ x = '?' ∨ x = '#')) :
    splitnetloc (a ++ b) = (a, b) := by
  induction a with
  | nil =>
    rcases hb with hb | ⟨x, r, hb, hx⟩
    · subst hb; rfl
    · subst hb
      simp [splitnetloc, hx]
  | cons y rest ih =>
    have hy := ha y (List.mem_cons_self _ _)
    have h1 : ∀ x ∈ rest, ¬(x = '/' ∨ x = '?' ∨ x = '#') :=
      fun x hx => ha x (List.mem_cons_of_mem _ hx)
    simp [splitnetloc, hy, ih h1]

theorem urlsplit_scheme (scheme rest : List Char)
    (h1 : scheme ≠ []) (h2 : scheme.all schemeChar = true)
    (h3 : lowerChars scheme = scheme) (h4 : rest.head? = some '/') :
    urlsplit (scheme ++ ':' :: rest) = urlsplitFinish scheme rest := by
  have hc : (':' : Char) ∉ scheme := by
    intro hm
    have := List.all_eq_true.mp h2 ':' hm
    exact absurd this (by decide)
  have hie : scheme.isEmpty = false := by
    cases scheme with
    | nil => exact absurd rfl h1
    | cons _ _ => rfl
  obtain ⟨t, rfl⟩ : ∃ t, rest = '/' :: t := by
    cases rest with
    | nil => cases h4
    | cons x t =>
      have : x = '/' := by injection h4
      exact ⟨t, by rw [this]⟩
  have hdig : (('/' :: t).all Char.isDigit) = false := by
    simp [List.all_cons]
  unfold urlsplit
  rw [splitAtFirst_find ':' scheme ('/' :: t) hc]
  show (if scheme.isEmpty then urlsplitFinish [] (scheme ++ ':' :: '/' :: t)
    else if scheme == "http".toList then urlsplitFinish (lowerChars scheme) ('/' :: t)
    else if scheme.all schemeChar then
      if ('/' :: t).isEmpty || !(('/' :: t).all Char.isDigit) then
        urlsplitFinish (lowerChars scheme) ('/' :: t)
      else urlsplitFinish [] (scheme ++ ':' :: '/' :: t)
    else urlsplitFinish [] (scheme ++ ':' :: '/' :: t)) = urlsplitFinish scheme ('/' :: t)
  rw [if_neg (by simp [hie])]
  by_cases hh : (scheme == "http".toList) = true
  · rw [if_pos hh, h3]
  · rw [if_neg hh, if_pos h2]
    have hcond : (('/' :: t).isEmpty || !(('/' :: t).all Char.isDigit)) = true := by
      rw [hdig]
      rfl
    rw [if_pos hcond, h3]

theorem findIdxOf_some (c : Char) :
    ∀ (l : List Char) (i : Nat), findIdxOf c l = some i →
      ∃ h : i < l.length, l.get ⟨i, h⟩ = c := by
  intro l
  induction l with
  | nil => intro i h; cases h
  | cons x rest ih =>
    intro i h
    unfold findIdxOf at h
    by_cases hx : x = c
    · rw [if_pos hx] at h
      injection h with h
      subst h
      exact ⟨Nat.succ_pos _, hx⟩
    · rw [if_neg hx] at h
      obtain ⟨j, hj, rfl⟩ := Option.map_eq_some'.mp h
      obtain ⟨hlt, hget⟩ := ih j hj
      exact ⟨Nat.succ_lt_succ hlt, hget⟩

theorem findIdxOf_none (c : Char) :
    ∀ (l : List Char), findIdxOf c l = none → c ∉ l := by
  intro l
  induction l with
  | nil => intro _ hm; cases hm
  | cons x rest ih =>
    intro h hm
    unfold findIdxOf at h
    by_cases hx : x = c
    · rw [if_pos hx] at h; cases h
    · rw [if_neg hx] at h
      rcases List.mem_cons.mp hm with he | hm2
      · exact hx he.symm
      · exact ih (Option.map_eq_none'.mp h) hm2

theorem findIdxFrom_some (c : Char) (s : Nat) (l : List Char) (i : Nat)
    (h : findIdxFrom c s l = some i) :
    ∃ hi : i < l.length, l.get ⟨i, hi⟩ = c := by
  unfold findIdxFrom at h
  cases hf : findIdxOf c (l.drop s) with
  | none => rw [hf] at h; cases h
  | some j =>
    rw [hf] at h
    injection h with h
    subst h
    obtain ⟨hj, hget⟩ := findIdxOf_some c (l.drop s) j hf
    have hj2 : j < (l.drop s).length := hj
    rw [List.length_drop] at hj
    have hlen : s + j < l.length := by omega
    refine ⟨hlen, ?_⟩
    have hgd : (List.drop s l).get ⟨j, hj2⟩ = l.get ⟨s + j, hlen⟩ := List.getElem_drop l
    rw [← hgd]
    exact hget

theorem take_semi_drop (c : Char) :
    ∀ (l : List Char) (i : Nat) (h : i < l.length), l.get ⟨i, h⟩ = c →
      l.take i ++ c :: l.drop (i + 1) = l := by
  intro l
  induction l with
  | nil => intro i h; cases h
  | cons x rest ih =>
    intro i h hc
    cases i with
    | zero =>
      simp only [List.take_zero, List.nil_append, List.drop_succ_cons, List.drop_zero]
      have : x = c := hc
      rw [this]
    | succ j =>
      have hj : j < rest.length := Nat.lt_of_succ_lt_succ h
      simp only [List.take_succ_cons, List.cons_append, List.drop_succ_cons]
      rw [ih j hj hc]

theorem drop_nil_getLast (c : Char) (l : List Char) (i : Nat) (hi : i < l.length)
    (hget : l.get ⟨i, hi⟩ = c) (hd : l.drop (i + 1) = []) :
    l.getLast? = some c := by
  have hle : l.length ≤ i + 1 := by
    by_contra hlt
    have : l.drop (i + 1) ≠ [] := by
      intro hnil
      have := congrArg List.length hnil
      rw [List.length_drop] at this
      simp at this
      omega
    exact this hd
  have hieq : i = l.length - 1 := by omega
  subst hieq
  rw [List.getLast?_eq_getElem?,
    List.getElem?_eq_getElem (by omega : l.length - 1 < l.length)]
  exact congrArg some hget

theorem splitparams_rejoin (l : List Char) (hmem : ';' ∈ l)
    (hlast : l.getLast? ≠ some ';') :
    (if !(splitparams l).2.isEmpty then (splitparams l).1 ++ ';' :: (splitparams l).2
     else (splitparams l).1) = l := by
  have main : ∀ i (hi : i < l.length), l.get ⟨i, hi⟩ = ';' →
      (if !(l.drop (i + 1)).isEmpty then l.take i ++ ';' :: l.drop (i + 1) else l.take i) = l := by
    intro i hi hget
    cases hd : (l.drop (i + 1)).isEmpty with
    | true =>
      exact absurd (drop_nil_getLast ';' l i hi hget (List.isEmpty_iff.mp hd)) hlast
    | false =>
      simp only [Bool.not_false, if_true]
      exact take_semi_drop ';' l i hi hget
  unfold splitparams
  by_cases hsl : l.contains '/' = true
  · rw [if_pos hsl]
    cases hr : rfindIdx '/' l with
    | none => rfl
    | some s =>
      dsimp only
      cases hf : findIdxFrom ';' s l with
      | none => rfl
      | some i =>
        obtain ⟨hi, hget⟩ := findIdxFrom_some ';' s l i hf
        exact main i hi hget
  · rw [if_neg hsl]
    cases hf : findIdxOf ';' l with
    | none => exact absurd hmem (findIdxOf_none ';' l hf)
    | some i =>
      obtain ⟨hi, hget⟩ := findIdxOf_some ';' l i hf
      exact main i hi hget

theorem splitAtFirst_cons_ne (c x : Char) (hx : ¬ x = c) (l : List Char) :
    splitAtFirst c (x :: l) = (x :: (splitAtFirst c l).1, (splitAtFirst c l).2) := by
  simp [splitAtFirst, hx]

theorem path_of_qf (path : List Char) (q f : Option (List Char))
    (hpq : '?' ∉ path) (hpf : '#' ∉ path) :
    (splitAtFirst '?' (splitAtFirst '#' (path ++ qfSuffix q f)).1).1 = path := by
  cases q with
  | some qq =>
    have hq : qfSuffix (some qq) f =
        '?' :: (qq ++ (match f with | none => [] | some ff => '#' :: ff)) := rfl
    rw [hq, splitAtFirst_append '#' path _ hpf]
    dsimp only
    rw [splitAtFirst_cons_ne '#' '?' (by decide)]
    dsimp only
    rw [splitAtFirst_find '?' path _ hpq]
  | none =>
    cases f with
    | some ff =>
      have hqf : qfSuffix none (some ff) = '#' :: ff := rfl
      rw [hqf, splitAtFirst_find '#' path ff hpf]
      dsimp only
      rw [splitAtFirst_not_mem '?' path hpq]
    | none =>
      have hqf : qfSuffix none none = [] := rfl
      rw [hqf, List.append_nil, splitAtFirst_not_mem '#' path hpf]
      dsimp only
      rw [splitAtFirst_not_mem '?' path hpq]

theorem pathQf_shape (path : List Char) (q f : Option (List Char))
    (hp1 : path = [] ∨ path.head? = some '/') :
    path ++ qfSuffix q f = [] ∨
      ∃ x r, path ++ qfSuffix q f = x :: r ∧ (x = '/' ∨ x = '?' ∨ x = '#') := by
  rcases hp1 with hp | hp
  · subst hp
    simp only [List.nil_append]
    cases q with
    | some qq => exact Or.inr ⟨'?', _, rfl, by decide⟩
    | none =>
      cases f with
      | some ff => exact Or.inr ⟨'#', ff, rfl, by decide⟩
      | none => exact Or.inl rfl
  · cases path with
    | nil => cases hp
    | cons x t =>
      have hx : x = '/' := by injection hp
      subst hx
      exact Or.inr ⟨'/', t ++ qfSuffix q f, rfl, Or.inl rfl⟩

theorem contains_eq_false_of_not_mem {c : Char} {l : List Char} (h : c ∉ l) :
    l.contains c = false := by
  cases hc : l.contains c with
  | false => rfl
  | true => exact absurd (List.mem_of_elem_eq_true hc) h

theorem urlsplitFinish_std (scheme netloc path : List Char) (q f : Option (List Char))
    (hnet : ∀ x ∈ netloc, ¬(x = '/' ∨ x = '?' ∨ x = '#') ∧ x ≠ '[' ∧ x ≠ ']')
    (hp1 : path = [] ∨ path.head? = some '/')
    (hpq : '?' ∉ path) (hpf : '#' ∉ path) :
    urlsplitFinish scheme ('/' :: '/' :: (netloc ++ (path ++ qfSuffix q f))) =
      .ok ⟨scheme, netloc, path,
        ((splitAtFirst '?' (splitAtFirst '#' (path ++ qfSuffix q f)).1).2).getD [],
        ((splitAtFirst '#' (path ++ qfSuffix q f)).2).getD []⟩ := by
  have ht : ((('/' :: '/' :: (netloc ++ (path ++ qfSuffix q f))).take 2) == "//".toList)
      = true := rfl
  have hnl : splitnetloc (netloc ++ (path ++ qfSuffix q f)) =
      (netloc, path ++ qfSuffix q f) :=
    splitnetloc_append _ _ (fun x hx => (hnet x hx).1) (pathQf_shape path q f hp1)
  have hlb : netloc.contains '[' = false :=
    contains_eq_false_of_not_mem (fun hm => (hnet '[' hm).2.1 rfl)
  have hrb : netloc.contains ']' = false :=
    contains_eq_false_of_not_mem (fun hm => (hnet ']' hm).2.2 rfl)
  unfold urlsplitFinish
  rw [if_pos ht,
    show ('/' :: '/' :: (netloc ++ (path ++ qfSuffix q f))).drop 2
      = netloc ++ (path ++ qfSuffix q f) from rfl,
    hnl]
  unfold urlsplitAfterNetloc
  dsimp only
  rw [if_neg (by rw [hlb, hrb]; decide)]
  rw [path_of_qf path q f hpq hpf]

theorem urlunsplit_std (scheme netloc path : List Char)
    (hs : scheme ≠ []) (hn : netloc ≠ []) (hp : path = [] ∨ path.head? = some '/') :
    urlunsplit scheme netloc path [] [] =
      scheme ++ ':' :: '/' :: '/' :: (netloc ++ path) := by
  have hni : netloc.isEmpty = false := by
    cases netloc with
    | nil => exact absurd rfl hn
    | cons _ _ => rfl
  have hsi : scheme.isEmpty = false := by
    cases scheme with
    | nil => exact absurd rfl hs
    | cons _ _ => rfl
  unfold urlunsplit
  rcases hp with hp | hp
  · subst hp
    simp [hni, hsi]
  · cases path with
    | nil => cases hp
    | cons x t =>
      have hx : x = '/' := by injection hp
      subst hx
      have htake : ((('/' :: t).take 1) == "/".toList) = true := rfl
      simp [hni, hsi, htake]

/-- C9 counterexample: the claim "for every URL, `base_url` returns the
URL with its query string and fragment removed" fails on the code at two
concrete inputs that have no query string and no fragment, so removal
would leave them unchanged: `base_url("http://h/p;") = "http://h/p"`
(the trailing bare `;` is dropped by the parameter split of `urlparse`)
and `base_url("HTTP://h/p") = "http://h/p"` (the scheme is lowercased by
`urlsplit`) — both also the behaviour of CPython 2.7. -/
theorem base_url_not_strip_only_counterexample :
    (base_url ("http://h/p;".toList) = .ok ("http://h/p".toList) ∧
      "http://h/p".toList ≠ "http://h/p;".toList) ∧
    (base_url ("HTTP://h/p".toList) = .ok ("http://h/p".toList) ∧
      "http://h/p".toList ≠ "HTTP://h/p".toList) := by
  exact ⟨⟨rfl, by decide⟩, ⟨rfl, by decide⟩⟩

/-- C9 (amended): for every URL of the standard shape
`scheme://host/path[?query][#fragment]` whose scheme is already
lowercase and whose path does not end in a bare `;` — the two
restrictions the counterexample forces — `base_url` returns the URL with
its query string and fragment removed: exactly `scheme://host/path`
(host nonempty and free of `/?#[]`, path empty or starting with `/` and
free of `?`/`#`; the query and the fragment are arbitrary). -/
theorem base_url_strips_query_and_fragment
    (scheme netloc path : List Char) (q f : Option (List Char))
    (h1 : scheme ≠ []) (h2 : scheme.all schemeChar = true)
    (h3 : lowerChars scheme = scheme)
    (hnet : ∀ x ∈ netloc, ¬(x = '/' ∨ x = '?' ∨ x = '#') ∧ x ≠ '[' ∧ x ≠ ']')
    (hn : netloc ≠ [])
    (hp1 : path = [] ∨ path.head? = some '/')
    (hpq : '?' ∉ path) (hpf : '#' ∉ path)
    (hsemi : path.getLast? ≠ some ';') :
    base_url (scheme ++ ':' :: '/' :: '/' :: (netloc ++ (path ++ qfSuffix q f))) =
      .ok (scheme ++ ':' :: '/' :: '/' :: (netloc ++ path)) := by
  have hhead : ('/' :: '/' :: (netloc ++ (path ++ qfSuffix q f))).head? = some '/' := rfl
  have hus := (urlsplit_scheme scheme ('/' :: '/' :: (netloc ++ (path ++ qfSuffix q f)))
    h1 h2 h3 hhead).trans (urlsplitFinish_std scheme netloc path q f hnet hp1 hpq hpf)
  unfold base_url urlparse
  rw [hus]
  dsimp only
  by_cases hup : (usesParams.contains scheme && path.contains ';') = true
  · rw [if_pos hup]
    dsimp only
    unfold urlunparse
    dsimp only
    have hmem : ';' ∈ path :=
      List.mem_of_elem_eq_true ((Bool.and_eq_true _ _).mp hup).2
    rw [splitparams_rejoin path hmem hsemi,
      urlunsplit_std scheme netloc path h1 hn hp1]
  · rw [if_neg hup]
    dsimp only
    unfold urlunparse
    dsimp only
    rw [show (if !([] : List Char).isEmpty then path ++ ';' :: ([] : List Char) else path)
        = path from rfl,
      urlunsplit_std scheme netloc path h1 hn hp1]

/-- Witness for C9 at the spec's example URL
`http://example.com/foo?bar=baz&x=y#blarg`. -/
theorem base_url_strips_query_and_fragment_witness :
    base_url ("http://example.com/foo?bar=baz&x=y#blarg".toList) =
      .ok ("http://example.com/foo".toList) := by
  have h := base_url_strips_query_and_fragment
    "http".toList "example.com".toList "/foo".toList
    (some "bar=baz&x=y".toList) (some "blarg".toList)
    (by decide) (by decide) (by decide) (by decide) (by decide)
    (by decide) (by decide) (by decide) (by decide)
  have e1 : "http://example.com/foo?bar=baz&x=y#blarg".toList =
      "http".toList ++ ':' :: '/' :: '/' :: ("example.com".toList ++
        ("/foo".toList ++ qfSuffix (some "bar=baz&x=y".toList) (some "blarg".toList))) := by
    decide
  have e2 : "http://example.com/foo".toList =
      "http".toList ++ ':' :: '/' :: '/' :: ("example.com".toList ++ "/foo".toList) := by
    decide
  rw [e1, e2]
  exact h

end CharmHelpers
